import Mathlib

/-!
# Verification of the ghettp HTTP server core

A shallow embedding, over `List Char` as the byte-string type, of the
connection-handling pipeline of the ghettp repository:

* `src/source/socket.cpp` — request parsing (`socket::parseRequest`),
  response serialization (`socket::buildResponse`), per-connection
  handling (`socket::handleClient`), and `socket::stop`;
* `src/source/ghettp.cpp` — route registration (`server::get/post/put/del`),
  dispatch (`server::routeRequest`), and `server::stop`;
* the header — `HttpRequest`, `HttpResponse`,
  `std::map<std::string, std::string>` header/route maps.

`std::map` is embedded as an association list kept strictly sorted by the
bytewise lexicographic order on keys (`strLt`, the order of
`std::less<std::string>`); `operator[]`-assignment is `Smap.insert` and
`find` is `Smap.find?`.
-/

namespace Ghettp

/-- Byte strings: `std::string` is modelled as a list of characters
(the source only ever deals in 8-bit data; bytewise and characterwise
operations coincide on it). -/
abbrev Str := List Char

/-- Convenience conversion of a Lean string literal to `Str`. -/
def str (s : String) : Str := s.toList

/-- CRLF line ending. -/
def crlf : Str := ['\r', '\n']

/-! ## `std::map<std::string, α>` -/

/-- The strict order of `std::less<std::string>`: bytewise lexicographic
comparison. -/
def strLt : Str → Str → Bool
  | [], [] => false
  | [], _ :: _ => true
  | _ :: _, [] => false
  | a :: s, b :: t => if a < b then true else if b < a then false else strLt s t

/-- An `std::map<std::string, α>`: an association list, strictly sorted by
`strLt` on keys when built by `insert` from the empty map. -/
abbrev Smap (α : Type) := List (Str × α)

/-- `m[k] = v` on a `std::map`: insert-or-assign, keeping the list sorted. -/
def Smap.insert (k : Str) (v : α) : Smap α → Smap α
  | [] => [(k, v)]
  | (k', v') :: t =>
    if strLt k k' then (k, v) :: (k', v') :: t
    else if k = k' then (k, v) :: t
    else (k', v') :: Smap.insert k v t

/-- `m.find(k)` on a `std::map` (first association wins; on a well-formed
sorted map keys are unique). -/
def Smap.find? (k : Str) : Smap α → Option α
  | [] => none
  | (k', v) :: t => if k' = k then some v else Smap.find? k t

/-- Build a map by successive `operator[]` assignments, in list order. -/
def Smap.fromList (l : List (Str × α)) : Smap α :=
  l.foldl (fun m kv => m.insert kv.1 kv.2) []

/-! ## Data model (`include/socket.hpp`) -/

/-- `struct HttpRequest`. -/
structure HttpRequest where
  method : Str := []
  path : Str := []
  version : Str := []
  headers : Smap Str := []
  body : Str := []
  deriving Repr, DecidableEq

/-- `struct HttpResponse` (defaults as in the header). -/
structure HttpResponse where
  status_code : Int := 200
  status_text : Str := str "OK"
  headers : Smap Str := []
  body : Str := []
  deriving Repr, DecidableEq

/-- The payload of a thrown C++ exception (`what()` message). -/
abbrev Exn := Str

/-- `RequestHandler`: a handler either returns an `HttpResponse` or throws. -/
abbrev Handler := HttpRequest → Except Exn HttpResponse

/-! ## Request parsing (`socket::parseRequest`, socket.cpp lines 112–149) -/

/-- The whitespace class of `std::istream` token extraction
(`operator>>` with the default locale). -/
def isWSpace (c : Char) : Bool :=
  c = ' ' || c = '\t' || c = '\n' || c = '\x0b' || c = '\x0c' || c = '\r'

/-- Whitespace-separated tokens, in order: what successive `>>` extractions
on an `istringstream` produce (line 122). -/
def tokens : Str → List Str
  | [] => []
  | c :: s =>
    if isWSpace c then tokens s
    else (c :: s.takeWhile (fun d => !isWSpace d))
      :: tokens (s.dropWhile (fun d => !isWSpace d))
  termination_by s => s.length
  decreasing_by
  · exact Nat.lt_succ_of_le (Nat.le_refl _)
  · exact Nat.lt_succ_of_le (List.dropWhile_sublist _).length_le

/-- Successive `std::getline(stream, line)` results on a string stream:
lines are separated by `'\n'` (the delimiter is consumed and dropped), and
a final fragment without a terminating `'\n'` is still a line.  `getline`
on an exhausted stream fails, so `""` yields no lines. -/
def getlines : Str → List Str
  | [] => []
  | c :: s =>
    if c = '\n' then [] :: getlines s
    else
      match getlines s with
      | [] => [[c]]
      | l :: ls => (c :: l) :: ls

/-- Lines 118–120 and 126–128: `if (line.back() == '\r') line.pop_back();`.
`std::string::back()` on an empty string violates its precondition
(undefined behavior); that case is `none`. -/
def stripCR (l : Str) : Option Str :=
  match l.getLast? with
  | none => none
  | some c => some (if c = '\r' then l.dropLast else l)

/-- Lines 129–135: find the first `':'`; the name is everything before it,
the value everything after with at most one leading space stripped; a line
with no colon yields `none`. -/
def headerKV (l : Str) : Option (Str × Str) :=
  if (l.dropWhile (· ≠ ':')) = [] then none
  else
    let key := l.takeWhile (· ≠ ':')
    let value := (l.dropWhile (· ≠ ':')).drop 1
    some (key, if value.head? = some ' ' then value.drop 1 else value)

/-- The header loop (lines 125–138): consume lines until one equal to
`"\r"` (the terminator, checked before the `back()` call) or end of
stream; returns the header map and the remaining lines. -/
def headerLoop : List Str → Smap Str → Option (Smap Str × List Str)
  | [], hs => some (hs, [])
  | l :: rest, hs =>
    if l = ['\r'] then some (hs, rest)
    else
      match stripCR l with
      | none => none
      | some l' =>
        match headerKV l' with
        | some (k, v) => headerLoop rest (hs.insert k v)
        | none => headerLoop rest hs

/-- The body loop (lines 140–146): append each remaining line plus `'\n'`,
then pop the final character if the result is nonempty. -/
def bodyJoin (ls : List Str) : Str :=
  (ls.foldl (fun acc l => acc ++ l ++ ['\n']) []).dropLast

/-- `socket::parseRequest` (lines 112–149).  `none` marks the runs that
execute `back()` on an empty line (undefined behavior in the source);
otherwise the parsed `HttpRequest`. -/
def parseRequest (raw : Str) : Option HttpRequest :=
  match getlines raw with
  | [] => some {}
  | fl :: rest =>
    match stripCR fl with
    | none => none
    | some fl' =>
      let ts := tokens fl'
      match headerLoop rest [] with
      | none => none
      | some (hs, bodyLines) =>
        some { method := ts.getD 0 [], path := ts.getD 1 [],
               version := ts.getD 2 [], headers := hs,
               body := bodyJoin bodyLines }

/-! ## Response serialization (`socket::buildResponse`, lines 151–165) -/

/-- Decimal rendering of the `int` status code, as `operator<<` prints it. -/
def intStr (n : Int) : Str := (toString n).toList

/-- Decimal rendering of `body.length()` (a `size_t`). -/
def natStr (n : Nat) : Str := (toString n).toList

/-- One header line as emitted by the loop at lines 156–158. -/
def emitHeader (kv : Str × Str) : Str := kv.1 ++ str ": " ++ kv.2 ++ crlf

/-- `socket::buildResponse`: status line, each map header in map iteration
order, a synthesized `Content-Length` from the body's byte length, a blank
line, then the body. -/
def buildResponse (r : HttpResponse) : Str :=
  str "HTTP/1.1 " ++ intStr r.status_code ++ ' ' :: r.status_text ++ crlf
    ++ r.headers.foldl (fun acc kv => acc ++ emitHeader kv) []
    ++ str "Content-Length: " ++ natStr r.body.length ++ crlf
    ++ crlf
    ++ r.body

/-! ## Per-connection handling (`socket::handleClient`, lines 84–110) -/

/-- The fixed 500 response sent when the dispatch callback throws
(lines 100–105). -/
def errorResponse500 : Str :=
  str "HTTP/1.1 500 Internal Server Error\r\nContent-Type: text/plain\r\nContent-Length: 21\r\n\r\nInternal Server Error"

/-- The response bytes `handleClient` sends for a nonempty read `raw`
under dispatch callback `handler` (lines 93–107): parse, dispatch,
serialize; a throwing dispatch is caught and replaced by the fixed 500
response.  `none` only when parsing hits undefined behavior. -/
def handleClient (handler : Handler) (raw : Str) : Option Str :=
  match parseRequest raw with
  | none => none
  | some req =>
    match handler req with
    | .ok resp => some (buildResponse resp)
    | .error _ => some errorResponse500

/-! ## Routing (`server`, ghettp.cpp) -/

/-- The route table `m_routes`: method → path → handler. -/
abbrev Routes := Smap (Smap Handler)

/-- `m_routes[method][path] = handler` (the body of `server::get/post/put/del`). -/
def registerRoute (method path : Str) (h : Handler) (r : Routes) : Routes :=
  r.insert method (((r.find? method).getD []).insert path h)

/-- `server::get` (ghettp.cpp lines 17–19). -/
def serverGet (path : Str) (h : Handler) (r : Routes) : Routes :=
  registerRoute (str "GET") path h r

/-- `server::post` (lines 21–23). -/
def serverPost (path : Str) (h : Handler) (r : Routes) : Routes :=
  registerRoute (str "POST") path h r

/-- `server::put` (lines 25–27). -/
def serverPut (path : Str) (h : Handler) (r : Routes) : Routes :=
  registerRoute (str "PUT") path h r

/-- `server::del` (lines 29–31). -/
def serverDel (path : Str) (h : Handler) (r : Routes) : Routes :=
  registerRoute (str "DELETE") path h r

/-- The fixed 404 response built by `server::routeRequest` (lines 86–91). -/
def notFoundResponse : HttpResponse :=
  { status_code := 404, status_text := str "Not Found",
    headers := Smap.insert (str "Content-Type") (str "text/html") [],
    body := str "<html><body><h1>404 - Not Found</h1></body></html>" }

/-- `server::routeRequest` (lines 77–92): look up the method, then the
path; invoke the handler on success (its exception, if any, propagates),
otherwise return the fixed 404 response. -/
def routeRequest (r : Routes) (req : HttpRequest) : Except Exn HttpResponse :=
  match r.find? req.method with
  | some inner =>
    match inner.find? req.path with
    | some h => h req
    | none => .ok notFoundResponse
  | none => .ok notFoundResponse

/-! ## Lifecycle state (`socket::stop`, `server::stop`) -/

/-- The `socket` state touched by `socket::stop`. -/
structure SocketState where
  running : Bool
  fd : Int
  shutdownRequested : Bool
  deriving Repr, DecidableEq

/-- `socket::stop` (socket.cpp lines 77–82): clear the running flag and,
if the descriptor is open, request a full shutdown. -/
def socketStop (s : SocketState) : SocketState :=
  { s with running := false,
           shutdownRequested := if s.fd ≠ -1 then true else s.shutdownRequested }

/-- The `server` state touched by `server::stop`. -/
structure ServerState where
  running : Bool
  sock : SocketState
  threadJoined : Bool
  deriving Repr, DecidableEq

/-- `server::stop` (ghettp.cpp lines 67–75): only when the running flag is
set, clear it, stop the socket and join the background thread. -/
def serverStop (s : ServerState) : ServerState :=
  if s.running then
    { running := false, sock := socketStop s.sock, threadJoined := true }
  else s

/-! ## Spec-side descriptions -/

/-- Modelled from the spec: header lines are split on the first colon,
name before, value after with at most one leading space stripped,
colon-free lines skipped, and on duplicate names the later line wins —
the value for `k` is the one from the last contributing line. -/
def specHeaderValue (hls : List Str) (k : Str) : Option Str :=
  hls.reverse.findSome? fun l =>
    match headerKV l with
    | some (k', v) => if k' = k then some v else none
    | none => none

/-- Modelled from the spec: lines joined with single newline separators,
no trailing newline added. -/
def joinNL : List Str → Str
  | [] => []
  | [l] => l
  | l :: ls => l ++ '\n' :: joinNL ls

/-! ## Derived definitions used by the lemmas -/

/-- The strict key order on map entries. -/
def entLt {α : Type} (p q : Str × α) : Prop := strLt p.1 q.1 = true

/-- One header line's effect on the header map (the body of the loop at
lines 129–137 of socket.cpp). -/
def headerStep (hs : Smap Str) (l : Str) : Smap Str :=
  match headerKV l with
  | some (k, v) => hs.insert k v
  | none => hs

/-! ## Lemmas: the `strLt` order -/

theorem strLt_irrefl (a : Str) : strLt a a = false := by
  induction a with
  | nil => rfl
  | cons c s ih => simp [strLt, ih]

theorem strLt_trans : ∀ {a b c : Str},
    strLt a b = true → strLt b c = true → strLt a c = true := by
  intro a
  induction a with
  | nil =>
    intro b c hab hbc
    cases b with
    | nil => simp [strLt] at hab
    | cons y t =>
      cases c with
      | nil => simp [strLt] at hbc
      | cons z u => rfl
  | cons x s ih =>
    intro b c hab hbc
    cases b with
    | nil => simp [strLt] at hab
    | cons y t =>
      cases c with
      | nil => simp [strLt] at hbc
      | cons z u =>
        by_cases h1 : x < y
        · by_cases h2 : y < z
          · simp [strLt, lt_trans h1 h2]
          · by_cases h3 : z < y
            · simp [strLt, h2, h3] at hbc
            · have hyz : y = z := le_antisymm (not_lt.mp h3) (not_lt.mp h2)
              subst hyz
              simp [strLt, h1]
        · by_cases h1' : y < x
          · simp [strLt, h1, h1'] at hab
          · have hxy : x = y := le_antisymm (not_lt.mp h1') (not_lt.mp h1)
            subst hxy
            simp [strLt, lt_irrefl] at hab
            by_cases h2 : x < z
            · simp [strLt, h2]
            · by_cases h3 : z < x
              · simp [strLt, h2, h3] at hbc
              · have hxz : x = z := le_antisymm (not_lt.mp h3) (not_lt.mp h2)
                subst hxz
                simp [strLt, lt_irrefl] at hbc ⊢
                exact ih hab hbc

theorem strLt_eq_of_not : ∀ {a b : Str},
    strLt a b = false → strLt b a = false → a = b := by
  intro a
  induction a with
  | nil =>
    intro b hab _
    cases b with
    | nil => rfl
    | cons y t => simp [strLt] at hab
  | cons x s ih =>
    intro b hab hba
    cases b with
    | nil => simp [strLt] at hba
    | cons y t =>
      by_cases h1 : x < y
      · simp [strLt, h1] at hab
      · by_cases h2 : y < x
        · simp [strLt, h2] at hba
        · have hxy : x = y := le_antisymm (not_lt.mp h2) (not_lt.mp h1)
          subst hxy
          simp [strLt, lt_irrefl] at hab hba
          exact congrArg (x :: ·) (ih hab hba)

theorem strLt_asymm {a b : Str} (h : strLt a b = true) : strLt b a = false := by
  by_contra h'
  have hba : strLt b a = true := by
    cases hv : strLt b a with
    | false => exact absurd hv h'
    | true => rfl
  have := strLt_trans h hba
  rw [strLt_irrefl] at this
  exact Bool.false_ne_true this

theorem strLt_of_not {a b : Str} (h1 : strLt a b = false) (h2 : a ≠ b) :
    strLt b a = true := by
  cases hv : strLt b a with
  | true => rfl
  | false => exact absurd (strLt_eq_of_not h1 hv) h2

/-! ## Lemmas: `Smap` -/

theorem Smap.find?_insert {α : Type} (m : Smap α) (k' : Str) (v : α) (k : Str) :
    (m.insert k' v).find? k = if k = k' then some v else m.find? k := by
  induction m with
  | nil =>
    by_cases h : k = k'
    · subst h; simp [Smap.insert, Smap.find?]
    · simp [Smap.insert, Smap.find?, h, Ne.symm h]
  | cons kv t ih =>
    obtain ⟨k'', w⟩ := kv
    by_cases hlt : strLt k' k''
    · by_cases h : k = k'
      · subst h; simp [Smap.insert, Smap.find?, hlt]
      · simp [Smap.insert, Smap.find?, hlt, h, Ne.symm h]
    · by_cases heq : k' = k''
      · subst heq
        by_cases h : k = k'
        · subst h; simp [Smap.insert, Smap.find?, hlt]
        · simp [Smap.insert, Smap.find?, hlt, h, Ne.symm h]
      · by_cases h : k = k''
        · subst h
          have hne : ¬ k = k' := fun hh => heq hh.symm
          have hne' : ¬ k' = k := heq
          simp [Smap.insert, Smap.find?, hlt, hne', hne]
        · have hne2 : ¬ k'' = k := fun hh => h hh.symm
          simp [Smap.insert, Smap.find?, hlt, heq, h, hne2, ih]

theorem Smap.mem_insert {α : Type} {x : Str × α} :
    ∀ {m : Smap α} {k : Str} {v : α},
      x ∈ Smap.insert k v m → x = (k, v) ∨ x ∈ m := by
  intro m
  induction m with
  | nil =>
    intro k v h
    simp [Smap.insert] at h
    exact Or.inl h
  | cons kv t ih =>
    intro k v h
    obtain ⟨k'', w⟩ := kv
    by_cases hlt : strLt k k''
    · rw [show Smap.insert k v ((k'', w) :: t) = (k, v) :: (k'', w) :: t from by
        simp [Smap.insert, hlt]] at h
      rcases List.mem_cons.mp h with h' | h'
      · exact Or.inl h'
      · exact Or.inr h'
    · by_cases heq : k = k''
      · rw [show Smap.insert k v ((k'', w) :: t) = (k, v) :: t from by
          simp [Smap.insert, hlt, heq, strLt_irrefl]] at h
        rcases List.mem_cons.mp h with h' | h'
        · exact Or.inl h'
        · exact Or.inr (List.mem_cons_of_mem _ h')
      · rw [show Smap.insert k v ((k'', w) :: t) = (k'', w) :: Smap.insert k v t from by
          simp [Smap.insert, hlt, heq]] at h
        rcases List.mem_cons.mp h with h' | h'
        · exact Or.inr (h' ▸ List.mem_cons_self _ _)
        · rcases ih h' with h'' | h''
          · exact Or.inl h''
          · exact Or.inr (List.mem_cons_of_mem _ h'')

theorem Smap.insert_ordered {α : Type} {m : Smap α} (k : Str) (v : α)
    (hs : m.Pairwise entLt) : (m.insert k v).Pairwise entLt := by
  induction m with
  | nil => exact List.Pairwise.cons (by intro q hq; cases hq) List.Pairwise.nil
  | cons kv t ih =>
    obtain ⟨k'', w⟩ := kv
    obtain ⟨hhead, htail⟩ := List.pairwise_cons.mp hs
    by_cases hlt : strLt k k''
    · rw [show Smap.insert k v ((k'', w) :: t) = (k, v) :: (k'', w) :: t from by
        simp [Smap.insert, hlt]]
      refine List.pairwise_cons.mpr ⟨?_, hs⟩
      intro q hq
      rcases List.mem_cons.mp hq with rfl | hq'
      · exact hlt
      · exact strLt_trans hlt (hhead q hq')
    · by_cases heq : k = k''
      · rw [show Smap.insert k v ((k'', w) :: t) = (k, v) :: t from by
          simp [Smap.insert, hlt, heq, strLt_irrefl]]
        refine List.pairwise_cons.mpr ⟨?_, htail⟩
        intro q hq
        exact heq ▸ hhead q hq
      · rw [show Smap.insert k v ((k'', w) :: t) = (k'', w) :: Smap.insert k v t from by
          simp [Smap.insert, hlt, heq]]
        refine List.pairwise_cons.mpr ⟨?_, ih htail⟩
        intro q hq
        rcases Smap.mem_insert hq with rfl | hq'
        · exact strLt_of_not (by simpa using hlt) heq
        · exact hhead q hq'

theorem Smap.insert_perm {α : Type} {m : Smap α} {k : Str} (v : α)
    (hk : k ∉ m.map Prod.fst) : (m.insert k v).Perm ((k, v) :: m) := by
  induction m with
  | nil => simp [Smap.insert]
  | cons kv t ih =>
    rw [List.map_cons] at hk
    have hk1 : k ≠ kv.1 := fun h => hk (h ▸ List.mem_cons_self _ _)
    have hkt : k ∉ t.map Prod.fst := fun h => hk (List.mem_cons_of_mem _ h)
    by_cases hlt : strLt k kv.1
    · simp [Smap.insert, hlt]
    · have h1 : (kv :: Smap.insert k v t).Perm (kv :: (k, v) :: t) :=
        List.Perm.cons kv (ih hkt)
      have h2 : (kv :: (k, v) :: t).Perm ((k, v) :: kv :: t) :=
        List.Perm.swap (k, v) kv t
      have : Smap.insert k v (kv :: t) = kv :: Smap.insert k v t := by
        simp [Smap.insert, hlt, hk1]
      rw [this]
      exact h1.trans h2

theorem Smap.foldl_ordered {α : Type} :
    ∀ (l : List (Str × α)) (m : Smap α), m.Pairwise entLt →
      (l.foldl (fun m kv => m.insert kv.1 kv.2) m).Pairwise entLt := by
  intro l
  induction l with
  | nil => intro m hm; exact hm
  | cons a t ih =>
    intro m hm
    exact ih _ (Smap.insert_ordered a.1 a.2 hm)

theorem Smap.foldl_perm {α : Type} :
    ∀ (l : List (Str × α)) (m : Smap α), (l.map Prod.fst).Nodup →
      (∀ x ∈ l.map Prod.fst, x ∉ m.map Prod.fst) →
      (l.foldl (fun m kv => m.insert kv.1 kv.2) m).Perm (l ++ m) := by
  intro l
  induction l with
  | nil => intro m _ _; simp
  | cons a t ih =>
    intro m hnd hdisj
    rw [List.map_cons] at hnd hdisj
    have hfresh : a.1 ∉ m.map Prod.fst := hdisj a.1 (List.mem_cons_self _ _)
    have hperm : (m.insert a.1 a.2).Perm ((a.1, a.2) :: m) :=
      Smap.insert_perm a.2 hfresh
    have hndt : (t.map Prod.fst).Nodup := (List.nodup_cons.mp hnd).2
    have hhd : a.1 ∉ t.map Prod.fst := (List.nodup_cons.mp hnd).1
    have hdisjt : ∀ x ∈ t.map Prod.fst, x ∉ (m.insert a.1 a.2).map Prod.fst := by
      intro x hx hmem
      have hmem' : x ∈ ((a.1, a.2) :: m).map Prod.fst :=
        (hperm.map Prod.fst).mem_iff.mp hmem
      rw [List.map_cons] at hmem'
      rcases List.mem_cons.mp hmem' with h | h
      · exact hhd (h ▸ hx)
      · exact hdisj x (List.mem_cons_of_mem _ hx) h
    have step1 : ((a :: t).foldl (fun m kv => m.insert kv.1 kv.2) m).Perm
        (t ++ m.insert a.1 a.2) := ih (m.insert a.1 a.2) hndt hdisjt
    have step2 : (t ++ m.insert a.1 a.2).Perm (t ++ (a.1, a.2) :: m) :=
      List.Perm.append_left t hperm
    have step3 : (t ++ (a.1, a.2) :: m).Perm (a :: (t ++ m)) := List.perm_middle
    exact (step1.trans step2).trans step3

theorem Smap.fromList_ordered {α : Type} (l : List (Str × α)) :
    (Smap.fromList l).Pairwise entLt :=
  Smap.foldl_ordered l [] List.Pairwise.nil

theorem Smap.fromList_perm {α : Type} (l : List (Str × α))
    (hnd : (l.map Prod.fst).Nodup) : (Smap.fromList l).Perm l := by
  have := Smap.foldl_perm l [] hnd (fun x _ h => List.not_mem_nil x (List.map_nil ▸ h))
  simpa [Smap.fromList] using this

theorem Smap.fromList_eq_of_perm {α : Type} {l1 l2 : List (Str × α)}
    (hp : l1.Perm l2) (hnd : (l1.map Prod.fst).Nodup) :
    Smap.fromList l1 = Smap.fromList l2 := by
  have hnd2 : (l2.map Prod.fst).Nodup := ((hp.map Prod.fst).nodup_iff).mp hnd
  haveI : IsAntisymm (Str × α) entLt :=
    ⟨fun p q hpq hqp => absurd hqp (by simp [entLt, strLt_asymm hpq])⟩
  exact List.eq_of_perm_of_sorted
    (((Smap.fromList_perm l1 hnd).trans hp).trans (Smap.fromList_perm l2 hnd2).symm)
    (Smap.fromList_ordered l1) (Smap.fromList_ordered l2)

/-! ## Lemmas: folds producing concatenations -/

theorem foldl_emit_eq :
    ∀ (m : Smap Str) (acc : Str),
      m.foldl (fun acc kv => acc ++ emitHeader kv) acc
        = acc ++ (m.map emitHeader).flatten := by
  intro m
  induction m with
  | nil => intro acc; simp
  | cons kv t ih => intro acc; simp [ih, List.append_assoc]

theorem foldl_body_eq :
    ∀ (ls : List Str) (acc : Str),
      ls.foldl (fun acc l => acc ++ l ++ ['\n']) acc
        = acc ++ (ls.map (· ++ ['\n'])).flatten := by
  intro ls
  induction ls with
  | nil => intro acc; simp
  | cons l t ih => intro acc; rw [List.foldl_cons, ih]; simp [List.append_assoc]

theorem join_map_nl_dropLast :
    ∀ ls : List Str, ((ls.map (· ++ ['\n'])).flatten).dropLast = joinNL ls
  | [] => rfl
  | [l] => by simp [joinNL]
  | l :: l' :: ls => by
    have ih := join_map_nl_dropLast (l' :: ls)
    have hne : ((l' :: ls).map (· ++ ['\n'])).flatten ≠ [] := by
      simp
    calc ((l :: l' :: ls).map (· ++ ['\n'])).flatten.dropLast
        = ((l ++ ['\n']) ++ ((l' :: ls).map (· ++ ['\n'])).flatten).dropLast := by
          simp
      _ = (l ++ ['\n']) ++ ((l' :: ls).map (· ++ ['\n'])).flatten.dropLast :=
          List.dropLast_append_of_ne_nil _ hne
      _ = l ++ '\n' :: joinNL (l' :: ls) := by rw [ih]; simp
      _ = joinNL (l :: l' :: ls) := rfl

/-- The body loop computes exactly the newline-join of the remaining
lines, with no trailing newline. -/
theorem bodyJoin_eq_joinNL (ls : List Str) : bodyJoin ls = joinNL ls := by
  rw [bodyJoin, foldl_body_eq, List.nil_append, join_map_nl_dropLast]

/-! ## Lemmas: `getlines` -/

theorem getlines_line (l r : Str) (hl : '\n' ∉ l) :
    getlines (l ++ '\n' :: r) = l :: getlines r := by
  induction l with
  | nil => simp [getlines]
  | cons c t ih =>
    have hc : ¬ c = '\n' := fun h => hl (by simp [h])
    have ht : '\n' ∉ t := fun h => hl (List.mem_cons_of_mem _ h)
    rw [List.cons_append]
    rw [show getlines (c :: (t ++ '\n' :: r))
        = match getlines (t ++ '\n' :: r) with
          | [] => [[c]]
          | l :: ls => (c :: l) :: ls from by simp [getlines, hc]]
    rw [ih ht]

/-! ## Lemmas: `tokens` -/

theorem takeWhile_word {p : Char → Bool} :
    ∀ (w r : Str), (∀ c ∈ w, p c = true) →
      (r = [] ∨ ∃ d r', r = d :: r' ∧ p d = false) →
      (w ++ r).takeWhile p = w ∧ (w ++ r).dropWhile p = r := by
  intro w
  induction w with
  | nil =>
    intro r _ hr
    rcases hr with rfl | ⟨d, r', rfl, hd⟩
    · exact ⟨rfl, rfl⟩
    · simp [List.takeWhile, List.dropWhile, hd]
  | cons c t ih =>
    intro r hw hr
    have hc : p c = true := hw c (List.mem_cons_self _ _)
    have ht : ∀ x ∈ t, p x = true := fun x hx => hw x (List.mem_cons_of_mem _ hx)
    obtain ⟨h1, h2⟩ := ih r ht hr
    constructor
    · rw [List.cons_append, List.takeWhile_cons, hc]; simp [h1]
    · rw [List.cons_append, List.dropWhile_cons, hc]; simp [h2]

theorem tokens_ws {c : Char} (r : Str) (h : isWSpace c = true) :
    tokens (c :: r) = tokens r := by
  simp [tokens, h]

theorem tokens_word (w r : Str) (hw : w ≠ [])
    (hnw : ∀ c ∈ w, isWSpace c = false)
    (hr : r = [] ∨ ∃ d r', r = d :: r' ∧ isWSpace d = true) :
    tokens (w ++ r) = w :: tokens r := by
  cases w with
  | nil => exact absurd rfl hw
  | cons c w' =>
    have hc : isWSpace c = false := hnw c (List.mem_cons_self _ _)
    have hw' : ∀ x ∈ w', (fun d => !isWSpace d) x = true := by
      intro x hx
      simp [hnw x (List.mem_cons_of_mem _ hx)]
    have hr' : r = [] ∨ ∃ d r', r = d :: r' ∧ (fun d => !isWSpace d) d = false := by
      rcases hr with rfl | ⟨d, r', rfl, hd⟩
      · exact Or.inl rfl
      · exact Or.inr ⟨d, r', rfl, by simp [hd]⟩
    obtain ⟨h1, h2⟩ := takeWhile_word w' r hw' hr'
    rw [List.cons_append]
    rw [show tokens (c :: (w' ++ r))
        = (c :: (w' ++ r).takeWhile (fun d => !isWSpace d))
          :: tokens ((w' ++ r).dropWhile (fun d => !isWSpace d)) from by
      simp [tokens, hc]]
    rw [h1, h2]

/-! ## Lemmas: the header loop -/

theorem headerLoop_run :
    ∀ (hls rest : List Str) (hs : Smap Str), (∀ l ∈ hls, l ≠ []) →
      headerLoop (hls.map (· ++ ['\r']) ++ ['\r'] :: rest) hs
        = some (hls.foldl headerStep hs, rest) := by
  intro hls
  induction hls with
  | nil => intro rest hs _; simp [headerLoop]
  | cons l t ih =>
    intro rest hs hne
    have hl : l ≠ [] := hne l (List.mem_cons_self _ _)
    have hterm : ¬ (l ++ ['\r'] = ['\r']) := by
      intro h
      exact hl (by simpa using congrArg List.dropLast h)
    have hstrip : stripCR (l ++ ['\r']) = some l := by
      simp [stripCR, List.getLast?_concat, List.dropLast_concat]
    rw [List.map_cons, List.cons_append]
    rw [show headerLoop ((l ++ ['\r']) :: (t.map (· ++ ['\r']) ++ ['\r'] :: rest)) hs
        = headerLoop (t.map (· ++ ['\r']) ++ ['\r'] :: rest) (headerStep hs l) from by
      cases hkv : headerKV l with
      | none => simp [headerLoop, hterm, hstrip, hkv, headerStep]
      | some kv => simp [headerLoop, hterm, hstrip, hkv, headerStep]]
    rw [ih rest (headerStep hs l) (fun x hx => hne x (List.mem_cons_of_mem _ hx))]
    rfl

theorem find?_headerFold :
    ∀ (hls : List Str) (hs : Smap Str) (k : Str),
      ((hls.foldl headerStep hs).find? k)
        = (specHeaderValue hls k).or (hs.find? k) := by
  intro hls
  induction hls with
  | nil => intro hs k; simp [specHeaderValue]
  | cons l t ih =>
    intro hs k
    rw [List.foldl_cons, ih]
    rw [show specHeaderValue (l :: t) k
        = ((t.reverse ++ [l]).findSome? fun l' =>
            match headerKV l' with
            | some (k', v) => if k' = k then some v else none
            | none => none) from by simp [specHeaderValue]]
    rw [List.findSome?_append]
    cases hkv : headerKV l with
    | none =>
      simp [headerStep, hkv, specHeaderValue]
    | some kv =>
      obtain ⟨k', v⟩ := kv
      by_cases hk : k' = k
      · subst hk
        simp [headerStep, hkv, Smap.find?_insert, specHeaderValue, Option.or_assoc]
      · have hk2 : ¬ k = k' := fun h => hk h.symm
        simp [headerStep, hkv, Smap.find?_insert, hk, hk2, specHeaderValue]

theorem tokens_nil : tokens [] = [] := by simp [tokens]

theorem tokens_one (m : Str) (hne : m ≠ [])
    (hws : ∀ c ∈ m, isWSpace c = false) : tokens m = [m] := by
  conv_lhs => rw [← List.append_nil m]
  rw [tokens_word m [] hne hws (Or.inl rfl), tokens_nil]

theorem tokens_two (m p : Str) (hm : m ≠ []) (hp : p ≠ [])
    (hmw : ∀ c ∈ m, isWSpace c = false) (hpw : ∀ c ∈ p, isWSpace c = false) :
    tokens (m ++ ' ' :: p) = [m, p] := by
  rw [tokens_word m (' ' :: p) hm hmw (Or.inr ⟨' ', p, rfl, by decide⟩)]
  rw [tokens_ws p (by decide), tokens_one p hp hpw]

theorem tokens_three (m p v : Str) (hm : m ≠ []) (hp : p ≠ []) (hv : v ≠ [])
    (hmw : ∀ c ∈ m, isWSpace c = false) (hpw : ∀ c ∈ p, isWSpace c = false)
    (hvw : ∀ c ∈ v, isWSpace c = false) :
    tokens (m ++ ' ' :: (p ++ ' ' :: v)) = [m, p, v] := by
  rw [tokens_word m (' ' :: (p ++ ' ' :: v)) hm hmw
    (Or.inr ⟨' ', p ++ ' ' :: v, rfl, by decide⟩)]
  rw [tokens_ws (p ++ ' ' :: v) (by decide)]
  rw [tokens_word p (' ' :: v) hp hpw (Or.inr ⟨' ', v, rfl, by decide⟩)]
  rw [tokens_ws v (by decide), tokens_one v hv hvw]

/-! ## Lemmas: whole-request runs of `parseRequest` -/

/-- A request consisting of a single CRLF-terminated line followed by the
empty-header terminator parses to the first line's tokens. -/
theorem parseRequest_one_line (fl : Str) (hfl : '\n' ∉ fl) :
    parseRequest (fl ++ ['\r', '\n', '\r', '\n'])
      = some { method := (tokens fl).getD 0 [], path := (tokens fl).getD 1 [],
               version := (tokens fl).getD 2 [] } := by
  have hcr : '\n' ∉ fl ++ ['\r'] := by
    intro h
    rcases List.mem_append.mp h with h' | h'
    · exact hfl h'
    · simp at h'
  have h1 : getlines (fl ++ ['\r', '\n', '\r', '\n'])
      = (fl ++ ['\r']) :: [['\r']] := by
    rw [show fl ++ ['\r', '\n', '\r', '\n']
        = (fl ++ ['\r']) ++ '\n' :: ['\r', '\n'] from by simp]
    rw [getlines_line _ _ hcr]
    rw [show (['\r', '\n'] : Str) = ['\r'] ++ '\n' :: [] from rfl]
    rw [getlines_line _ _ (by decide)]
    rfl
  have h2 : stripCR (fl ++ ['\r']) = some fl := by
    simp [stripCR, List.getLast?_concat, List.dropLast_concat]
  have h3 : headerLoop [['\r']] [] = some ([], []) := by simp [headerLoop]
  unfold parseRequest
  rw [h1]
  simp only [h2, h3]
  simp [bodyJoin]

/-- A run of nonempty CRLF-terminated lines followed by the terminator
splits into exactly those lines (with `'\r'` still attached) plus the
terminator line. -/
theorem getlines_block :
    ∀ (hls : List Str), (∀ l ∈ hls, '\n' ∉ l) →
      getlines ((hls.map (· ++ ['\r', '\n'])).flatten ++ ['\r', '\n'])
        = hls.map (· ++ ['\r']) ++ [['\r']] := by
  intro hls
  induction hls with
  | nil =>
    intro _
    rw [show ((List.map (· ++ ['\r', '\n']) []).flatten ++ ['\r', '\n'] : Str)
        = ['\r'] ++ '\n' :: [] from rfl]
    rw [getlines_line _ _ (by decide)]
    rfl
  | cons l t ih =>
    intro hnl
    have hl : '\n' ∉ l ++ ['\r'] := by
      intro h
      rcases List.mem_append.mp h with h' | h'
      · exact hnl l (List.mem_cons_self _ _) h'
      · simp at h'
    rw [show ((List.map (· ++ ['\r', '\n']) (l :: t)).flatten ++ ['\r', '\n'] : Str)
        = (l ++ ['\r']) ++ '\n' :: ((t.map (· ++ ['\r', '\n'])).flatten ++ ['\r', '\n'])
        from by simp [List.append_assoc]]
    rw [getlines_line _ _ hl]
    rw [ih (fun x hx => hnl x (List.mem_cons_of_mem _ hx))]
    rfl

/-! ## Lemmas: structure of `buildResponse` output -/

theorem flatten_emit_crlf :
    ∀ m : Smap Str, (m.map emitHeader).flatten = []
      ∨ ∃ j, (m.map emitHeader).flatten = j ++ crlf
  | [] => Or.inl rfl
  | kv :: t => by
    right
    rcases flatten_emit_crlf t with h | ⟨j, hj⟩
    · exact ⟨kv.1 ++ str ": " ++ kv.2, by
        simp [emitHeader, h, List.append_assoc]⟩
    · exact ⟨emitHeader kv ++ j, by simp [hj, List.append_assoc]⟩

theorem crlf_emit_infix :
    ∀ (m : Smap Str) {kv : Str × Str}, kv ∈ m →
      (crlf ++ emitHeader kv) <:+: (crlf ++ (m.map emitHeader).flatten) := by
  intro m
  induction m with
  | nil => intro kv h; cases h
  | cons kv' t ih =>
    intro kv h
    rcases List.mem_cons.mp h with rfl | h'
    · exact ⟨[], (t.map emitHeader).flatten, by simp [List.append_assoc]⟩
    · obtain ⟨s, u, hsu⟩ := ih h'
      refine ⟨crlf ++ kv'.1 ++ str ": " ++ kv'.2 ++ s, u, ?_⟩
      rw [show crlf ++ ((kv' :: t).map emitHeader).flatten
          = (crlf ++ kv'.1 ++ str ": " ++ kv'.2) ++ (crlf ++ (t.map emitHeader).flatten)
          from by simp [emitHeader, List.append_assoc]]
      rw [← hsu]
      simp [List.append_assoc]

/-! # Claim theorems -/

/-- C1 (counterexample): the claim asserts that a `Content-Length` value a
handler sets in the response's header map does not appear in the
serialized output.  At this concrete response — caller-set header
`Content-Length: 3`, body `hello` of 5 bytes — `buildResponse` emits the
caller's `Content-Length: 3` line (the serializer iterates the whole map)
and then appends the synthesized `Content-Length: 5`; the caller-set value
is not removed. -/
theorem buildResponse_keeps_caller_contentLength :
    buildResponse { status_code := 200, status_text := str "OK",
                    headers := Smap.fromList [(str "Content-Length", str "3")],
                    body := str "hello" }
      = str "HTTP/1.1 200 OK\r\n" ++ str "Content-Length: 3\r\n"
        ++ str "Content-Length: 5\r\n" ++ crlf ++ str "hello" := by
  decide

/-- C1 (amended): for every response, the serialized output ends with a
synthesized `Content-Length` line, on its own CRLF-delimited line, whose
value is the exact byte length of the body, followed by the blank line
and the body; and every caller-set header — including any caller-set
`Content-Length`, which is not removed — also appears in the output as a
CRLF-delimited line. -/
theorem buildResponse_contentLength (r : HttpResponse) :
    (crlf ++ str "Content-Length: " ++ natStr r.body.length ++ crlf ++ crlf ++ r.body)
      <:+ buildResponse r
    ∧ ∀ kv ∈ r.headers, (crlf ++ emitHeader kv) <:+: buildResponse r := by
  have hF : r.headers.foldl (fun acc kv => acc ++ emitHeader kv) []
      = (r.headers.map emitHeader).flatten := by
    rw [foldl_emit_eq]; rfl
  constructor
  · rcases flatten_emit_crlf r.headers with h | ⟨j, hj⟩
    · refine ⟨str "HTTP/1.1 " ++ intStr r.status_code ++ ' ' :: r.status_text, ?_⟩
      simp [buildResponse, hF, h, List.append_assoc]
    · refine ⟨str "HTTP/1.1 " ++ intStr r.status_code ++ ' ' :: r.status_text
        ++ crlf ++ j, ?_⟩
      simp [buildResponse, hF, hj, List.append_assoc]
  · intro kv hkv
    obtain ⟨s, u, hsu⟩ := crlf_emit_infix r.headers hkv
    refine ⟨str "HTTP/1.1 " ++ intStr r.status_code ++ ' ' :: r.status_text ++ s,
      u ++ (str "Content-Length: " ++ natStr r.body.length ++ crlf ++ crlf ++ r.body), ?_⟩
    rw [show buildResponse r
        = (str "HTTP/1.1 " ++ intStr r.status_code ++ ' ' :: r.status_text)
          ++ ((crlf ++ (r.headers.map emitHeader).flatten)
            ++ (str "Content-Length: " ++ natStr r.body.length ++ crlf ++ crlf ++ r.body))
        from by simp [buildResponse, hF, List.append_assoc]]
    rw [← hsu]
    simp [List.append_assoc]

/-- C1 (witness): the amended theorem evaluated at the counterexample's
response: the synthesized `Content-Length: 5` suffix is present, and the
caller-set `Content-Length: 3` header line is present as well. -/
theorem buildResponse_contentLength_wit :
    ((crlf ++ str "Content-Length: " ++ natStr (str "hello").length ++ crlf ++ crlf
        ++ str "hello")
      <:+ buildResponse { status_code := 200, status_text := str "OK",
                          headers := Smap.fromList [(str "Content-Length", str "3")],
                          body := str "hello" })
    ∧ ((crlf ++ emitHeader (str "Content-Length", str "3"))
      <:+: buildResponse { status_code := 200, status_text := str "OK",
                           headers := Smap.fromList [(str "Content-Length", str "3")],
                           body := str "hello" }) :=
  ⟨(buildResponse_contentLength
      { status_code := 200, status_text := str "OK",
        headers := Smap.fromList [(str "Content-Length", str "3")],
        body := str "hello" }).1,
   (buildResponse_contentLength
      { status_code := 200, status_text := str "OK",
        headers := Smap.fromList [(str "Content-Length", str "3")],
        body := str "hello" }).2 (str "Content-Length", str "3") (by decide)⟩

/-- C2: when the dispatch callback throws, `handleClient` catches the
error and sends exactly the fixed 500 response: status line
`HTTP/1.1 500 Internal Server Error`, headers `Content-Type: text/plain`
and `Content-Length: 21`, and body exactly `Internal Server Error` (whose
byte length is 21); the error does not propagate. -/
theorem handleClient_error_fixed500 (handler : Handler) (raw : Str)
    (req : HttpRequest) (e : Exn) (hparse : parseRequest raw = some req)
    (herr : handler req = .error e) :
    handleClient handler raw
      = some (str "HTTP/1.1 500 Internal Server Error" ++ crlf
          ++ str "Content-Type: text/plain" ++ crlf
          ++ str "Content-Length: 21" ++ crlf
          ++ crlf
          ++ str "Internal Server Error")
    ∧ (str "Internal Server Error").length = 21 := by
  refine ⟨?_, by decide⟩
  unfold handleClient
  rw [hparse]
  simp only [herr]
  decide

/-- C2 (witness): a handler that throws on a well-formed request yields
exactly the fixed 500 bytes. -/
theorem handleClient_error_fixed500_wit :
    handleClient (fun _ => .error (str "boom")) (str "GET / HTTP/1.1\r\n\r\n")
      = some (str "HTTP/1.1 500 Internal Server Error" ++ crlf
          ++ str "Content-Type: text/plain" ++ crlf
          ++ str "Content-Length: 21" ++ crlf
          ++ crlf
          ++ str "Internal Server Error")
    ∧ (str "Internal Server Error").length = 21 :=
  handleClient_error_fixed500 _ _
    { method := str "GET", path := str "/", version := str "HTTP/1.1" }
    (str "boom")
    (by simp [parseRequest, getlines, headerLoop, stripCR, tokens, bodyJoin, isWSpace, str])
    rfl

/-- C3: dispatching a request whose method and path fields equal (byte for
byte) a registered route's method and path returns exactly the registered
handler's result — the handler's response verbatim. -/
theorem routeRequest_registered (r : Routes) (method path : Str)
    (h : Handler) (req : HttpRequest)
    (hm : req.method = method) (hp : req.path = path) :
    routeRequest (registerRoute method path h r) req = h req := by
  subst hm; subst hp
  unfold routeRequest registerRoute
  simp [Smap.find?_insert]

/-- C3 (witness): a `GET /hi` route registered via `serverGet` receives
the request and its response (echoing the request body) comes back
verbatim. -/
theorem routeRequest_registered_wit :
    routeRequest
      (serverGet (str "/hi") (fun req => .ok { body := req.body }) [])
      { method := str "GET", path := str "/hi", body := str "B" }
      = (fun req : HttpRequest => (.ok { body := req.body } : Except Exn HttpResponse))
          { method := str "GET", path := str "/hi", body := str "B" } :=
  routeRequest_registered [] (str "GET") (str "/hi") _ _ rfl rfl

/-- C4: for any request whose (method, path) pair has no registered
handler — the method is absent, or the path is absent from the method's
sub-table — dispatch returns the fixed 404 response: status 404, status
text `Not Found`, header `Content-Type: text/html`, and the fixed HTML
body, regardless of the request's other fields. -/
theorem routeRequest_unmatched (r : Routes) (req : HttpRequest)
    (hmiss : ∀ inner, r.find? req.method = some inner →
      inner.find? req.path = none) :
    routeRequest r req = .ok notFoundResponse
    ∧ notFoundResponse.status_code = 404
    ∧ notFoundResponse.status_text = str "Not Found"
    ∧ notFoundResponse.headers.find? (str "Content-Type") = some (str "text/html")
    ∧ notFoundResponse.body = str "<html><body><h1>404 - Not Found</h1></body></html>" := by
  refine ⟨?_, rfl, rfl, by decide, rfl⟩
  unfold routeRequest
  cases hin : Smap.find? req.method r with
  | none => rfl
  | some inner => simp only [hmiss inner hin]

/-- C4 (witness): an empty route table sends any request to the fixed 404
response. -/
theorem routeRequest_unmatched_wit :
    routeRequest [] { method := str "GET", path := str "/missing" } = .ok notFoundResponse
    ∧ notFoundResponse.status_code = 404
    ∧ notFoundResponse.status_text = str "Not Found"
    ∧ notFoundResponse.headers.find? (str "Content-Type") = some (str "text/html")
    ∧ notFoundResponse.body = str "<html><body><h1>404 - Not Found</h1></body></html>" :=
  routeRequest_unmatched [] _ (fun inner h => by simp [Smap.find?] at h)

/-- C5 (the code evaluated at the failing inputs): the claim says no input
string makes parsing perform an invalid operation, but `parseRequest`
calls `line.back()` on an empty `std::string` — undefined behavior,
modelled as `none` — whenever the first line is empty (input `"\n"`) or a
header-section line is empty (input `"GET / HTTP/1.1\r\n\n\n"`). -/
theorem parseRequest_blank_line_ub :
    parseRequest (str "\n") = none
    ∧ parseRequest (str "GET / HTTP/1.1\r\n\n\n") = none := by
  constructor <;> decide

/-- C7: the first line is split on whitespace into the method, path and
version fields; when it carries fewer than three tokens the missing
fields are left empty, and parsing still succeeds. -/
theorem parseRequest_request_line (m p v : Str)
    (hm : m ≠ []) (hp : p ≠ []) (hv : v ≠ [])
    (hmw : ∀ c ∈ m, isWSpace c = false)
    (hpw : ∀ c ∈ p, isWSpace c = false)
    (hvw : ∀ c ∈ v, isWSpace c = false) :
    parseRequest (m ++ ' ' :: (p ++ ' ' :: v) ++ ['\r', '\n', '\r', '\n'])
      = some { method := m, path := p, version := v }
    ∧ parseRequest (m ++ ' ' :: p ++ ['\r', '\n', '\r', '\n'])
      = some { method := m, path := p }
    ∧ parseRequest (m ++ ['\r', '\n', '\r', '\n'])
      = some { method := m }
    ∧ parseRequest (['\r', '\n', '\r', '\n'] : Str) = some {} := by
  have hnl : ∀ (w : Str), (∀ c ∈ w, isWSpace c = false) → '\n' ∉ w :=
    fun w hw hmem => absurd (hw '\n' hmem) (by decide)
  refine ⟨?_, ?_, ?_, ?_⟩
  · have hfl : '\n' ∉ m ++ ' ' :: (p ++ ' ' :: v) := by
      intro hmem
      simp only [List.mem_append, List.mem_cons] at hmem
      rcases hmem with h | h | h | h | h
      · exact hnl m hmw h
      · exact absurd h (by decide)
      · exact hnl p hpw h
      · exact absurd h (by decide)
      · exact hnl v hvw h
    rw [parseRequest_one_line _ hfl,
      tokens_three m p v hm hp hv hmw hpw hvw]
    rfl
  · have hfl : '\n' ∉ m ++ ' ' :: p := by
      intro hmem
      simp only [List.mem_append, List.mem_cons] at hmem
      rcases hmem with h | h | h
      · exact hnl m hmw h
      · exact absurd h (by decide)
      · exact hnl p hpw h
    rw [parseRequest_one_line _ hfl, tokens_two m p hm hp hmw hpw]
    rfl
  · rw [parseRequest_one_line _ (hnl m hmw), tokens_one m hm hmw]
    rfl
  · have := parseRequest_one_line [] (by decide)
    rw [tokens_nil] at this
    simpa using this

/-- C7 (witness): the theorem at `GET / HTTP/1.1`, including the
one-token first line leaving path and version empty. -/
theorem parseRequest_request_line_wit :
    parseRequest (str "GET" ++ ' ' :: (str "/" ++ ' ' :: str "HTTP/1.1")
        ++ ['\r', '\n', '\r', '\n'])
      = some { method := str "GET", path := str "/", version := str "HTTP/1.1" }
    ∧ parseRequest (str "GET" ++ ['\r', '\n', '\r', '\n'])
      = some { method := str "GET" } :=
  ⟨(parseRequest_request_line (str "GET") (str "/") (str "HTTP/1.1")
      (by decide) (by decide) (by decide) (by decide) (by decide) (by decide)).1,
   (parseRequest_request_line (str "GET") (str "/") (str "HTTP/1.1")
      (by decide) (by decide) (by decide) (by decide) (by decide) (by decide)).2.2.1⟩

/-- C6: each header-section line is split on its first colon — name before
the colon, value after it with at most one leading space stripped; a line
with no colon is silently skipped; and on duplicate names the later
line's value wins.  Stated as: parsing a request whose header section
consists of the given lines yields a header map whose lookup agrees, at
every name, with the spec-side description (`specHeaderValue`: split each
line with `headerKV`, skip colon-free lines, last write wins). -/
theorem parseRequest_headerLines (hls : List Str)
    (hws : ∀ l ∈ hls, l ≠ [] ∧ '\n' ∉ l) :
    ∃ hm, parseRequest (str "GET / HTTP/1.1\r\n"
            ++ ((hls.map (· ++ ['\r', '\n'])).flatten ++ ['\r', '\n']))
        = some { method := str "GET", path := str "/",
                 version := str "HTTP/1.1", headers := hm }
      ∧ ∀ k, hm.find? k = specHeaderValue hls k := by
  refine ⟨hls.foldl headerStep [], ?_, ?_⟩
  · have hg : getlines (str "GET / HTTP/1.1\r\n"
        ++ ((hls.map (· ++ ['\r', '\n'])).flatten ++ ['\r', '\n']))
        = str "GET / HTTP/1.1\r"
          :: (hls.map (· ++ ['\r']) ++ [['\r']]) := by
      rw [show str "GET / HTTP/1.1\r\n"
            ++ ((hls.map (· ++ ['\r', '\n'])).flatten ++ ['\r', '\n'])
          = str "GET / HTTP/1.1\r"
            ++ '\n' :: ((hls.map (· ++ ['\r', '\n'])).flatten ++ ['\r', '\n'])
          from rfl]
      rw [getlines_line _ _ (by decide)]
      rw [getlines_block hls (fun l hl => (hws l hl).2)]
    unfold parseRequest
    rw [hg]
    simp only [show stripCR (str "GET / HTTP/1.1\r") = some (str "GET / HTTP/1.1")
      from by decide]
    rw [show hls.map (· ++ ['\r']) ++ [['\r']]
        = hls.map (· ++ ['\r']) ++ ['\r'] :: [] from rfl]
    simp only [headerLoop_run hls [] [] (fun l hl => (hws l hl).1)]
    simp [bodyJoin, tokens, isWSpace, str]
  · intro k
    rw [find?_headerFold]
    simp [Smap.find?, Option.or_none]

/-- C6 (witness): two `X`-headers (later wins), an `A`-header with a
leading space stripped, and a colon-free line that is skipped. -/
theorem parseRequest_headerLines_wit :
    ∃ hm, parseRequest (str "GET / HTTP/1.1\r\n"
            ++ (([str "X: 1", str "junk", str "A:  b", str "X:2"].map
                  (· ++ ['\r', '\n'])).flatten ++ ['\r', '\n']))
        = some { method := str "GET", path := str "/",
                 version := str "HTTP/1.1", headers := hm }
      ∧ ∀ k, hm.find? k
          = specHeaderValue [str "X: 1", str "junk", str "A:  b", str "X:2"] k :=
  parseRequest_headerLines [str "X: 1", str "junk", str "A:  b", str "X:2"]
    (by decide)

/-- C8: everything after the header-terminator line becomes the body: the
lines are joined with single newline separators and no trailing newline is
added (`joinNL`, the spec-side join). -/
theorem parseRequest_bodyLines (b : Str) :
    parseRequest (str "GET / HTTP/1.1\r\n\r\n" ++ b)
      = some { method := str "GET", path := str "/",
               version := str "HTTP/1.1", body := joinNL (getlines b) } := by
  have hg : getlines (str "GET / HTTP/1.1\r\n\r\n" ++ b)
      = str "GET / HTTP/1.1\r" :: ['\r'] :: getlines b := by
    rw [show str "GET / HTTP/1.1\r\n\r\n" ++ b
        = str "GET / HTTP/1.1\r" ++ '\n' :: (['\r'] ++ '\n' :: b) from rfl]
    rw [getlines_line _ _ (by decide), getlines_line _ _ (by decide)]
  unfold parseRequest
  rw [hg]
  simp only [show stripCR (str "GET / HTTP/1.1\r") = some (str "GET / HTTP/1.1")
    from by decide]
  rw [show headerLoop (['\r'] :: getlines b) [] = some ([], getlines b) from by
    simp [headerLoop]]
  simp [tokens, isWSpace, str, bodyJoin_eq_joinNL]

/-- C9: a second `stop()` in succession is a no-op: stopping twice equals
stopping once, and stopping an already-stopped server leaves its state
unchanged. -/
theorem serverStop_idempotent (s : ServerState) :
    serverStop (serverStop s) = serverStop s
    ∧ (s.running = false → serverStop s = s) := by
  constructor
  · cases h : s.running
    · simp [serverStop, h]
    · simp [serverStop, h]
  · intro h
    simp [serverStop, h]

/-- C9 (witness): the theorem at a concrete stopped server state. -/
theorem serverStop_idempotent_wit :
    serverStop (serverStop { running := false, sock := { running := false, fd := 3, shutdownRequested := true }, threadJoined := true })
      = serverStop { running := false, sock := { running := false, fd := 3, shutdownRequested := true }, threadJoined := true }
    ∧ serverStop { running := false, sock := { running := false, fd := 3, shutdownRequested := true }, threadJoined := true }
      = { running := false, sock := { running := false, fd := 3, shutdownRequested := true }, threadJoined := true } :=
  ⟨(serverStop_idempotent _).1, (serverStop_idempotent _).2 rfl⟩

/-- C10: the serializer emits headers in ascending bytewise lexicographic
order of name (the emitted key sequence of a map built by `operator[]`
assignments is `strLt`-sorted), and two responses whose header maps are
built from the same set of (name, value) pairs in different insertion
orders serialize identically. -/
theorem buildResponse_headers_sorted (l1 l2 : List (Str × Str))
    (c : Int) (t b : Str) (hperm : l1.Perm l2)
    (hnd : (l1.map Prod.fst).Nodup) :
    ((Smap.fromList l1).map Prod.fst).Pairwise (fun a b => strLt a b = true)
    ∧ buildResponse { status_code := c, status_text := t,
                      headers := Smap.fromList l1, body := b }
      = buildResponse { status_code := c, status_text := t,
                        headers := Smap.fromList l2, body := b } := by
  constructor
  · exact List.pairwise_map.mpr (Smap.fromList_ordered l1)
  · rw [Smap.fromList_eq_of_perm hperm hnd]

/-- C10 (witness): inserting `B` then `A` emits them as `A` then `B`, and
serializes identically to inserting `A` then `B`. -/
theorem buildResponse_headers_sorted_wit :
    (((Smap.fromList [(str "B", str "2"), (str "A", str "1")]).map Prod.fst).Pairwise
      (fun a b => strLt a b = true))
    ∧ buildResponse { status_code := 200, status_text := str "OK",
                      headers := Smap.fromList [(str "B", str "2"), (str "A", str "1")],
                      body := [] }
      = buildResponse { status_code := 200, status_text := str "OK",
                        headers := Smap.fromList [(str "A", str "1"), (str "B", str "2")],
                        body := [] } :=
  buildResponse_headers_sorted
    [(str "B", str "2"), (str "A", str "1")]
    [(str "A", str "1"), (str "B", str "2")]
    200 (str "OK") []
    (List.Perm.swap (str "A", str "1") (str "B", str "2") [])
    (by decide)

end Ghettp
